import Mathlib

/-!
Shallow embedding of the docloom library (src/lib.rs, src/md.rs, src/term.rs):
the Block/Inline document model, the Markdown renderer and the terminal
renderer, together with theorems about the layout policies they implement.

Machine integers: `u8`/`usize` values are modeled as `Nat`; the one place where
wrap-around matters (`level as usize - 1` in the terminal heading arm) uses an
explicit `% 2 ^ 64`.  Panicking code paths (`unreachable!`, `unimplemented!`)
are modeled as `Option` with `none` for the panic.  Rust string primitives
(`str::repeat`, `str::lines`, `str::trim_end`, format-width padding) are
modeled over `List Char`, matching their behavior on the `\r`-free strings the
renderers produce.
-/

namespace Docloom

/-- Model of Rust `str::repeat`: `n` copies of `s` concatenated. -/
def strRep (s : String) (n : Nat) : String :=
  match n with
  | 0 => ""
  | n + 1 => s ++ strRep s n

/-- Model of Rust `format!("{:width$}", s)`: pad on the right with spaces up to
`w` characters (no-op when `s` is already at least `w` characters). -/
def padRight (s : String) (w : Nat) : String :=
  s ++ strRep " " (w - s.length)

/-- Model of Rust `format!("{:>width$}", s)`: pad on the left with spaces. -/
def padLeft (s : String) (w : Nat) : String :=
  strRep " " (w - s.length) ++ s

/-- Worker for `rustLines`: split a character list at each newline.  A final
fragment without a terminating newline still yields a line; a terminating
newline does not produce a trailing empty line. -/
def rustLinesGo : List Char → List Char → List (List Char)
  | acc, [] => if acc.isEmpty then [] else [acc.reverse]
  | acc, c :: rest =>
    if c = '\n' then acc.reverse :: rustLinesGo [] rest
    else rustLinesGo (c :: acc) rest

/-- Model of Rust `str::lines` (for strings without carriage returns). -/
def rustLines (s : String) : List String :=
  (rustLinesGo [] s.data).map String.mk

/-- Model of Rust `str::trim_end`: drop trailing whitespace characters. -/
def rustTrimEnd (s : String) : String :=
  String.mk ((s.data.reverse.dropWhile (fun c => c.isWhitespace)).reverse)

/-- Model of Rust `str::trim`: drop leading and trailing whitespace. -/
def rustTrim (s : String) : String :=
  String.mk (((s.data.dropWhile (fun c => c.isWhitespace)).reverse.dropWhile
    (fun c => c.isWhitespace)).reverse)

/-- Number of dash characters in a string (used to state separator-row
properties). -/
def countDash (s : String) : Nat :=
  s.data.count '-'

/-- Model of `Renderer::write_indent` in src/term.rs: two spaces per level. -/
def indentStr (n : Nat) : String :=
  strRep "  " n

/-- Column alignment options (src/lib.rs `Alignment`). -/
inductive Alignment where
  | Left
  | Center
  | Right
deriving Repr, DecidableEq

/-- Inline nodes (src/lib.rs `Inline`).  String payloads keep their Rust
meaning; `Vec<Inline>` becomes `List Inline`. -/
inductive Inline where
  | Text (s : String)
  | Bold (content : List Inline)
  | Italic (content : List Inline)
  | Strikethrough (content : List Inline)
  | Code (s : String)
  | Link (text : List Inline) (url : String)
  | Image (alt : String) (url : String)
  | LineBreak
deriving Repr

/-- Block nodes (src/lib.rs `Block`).  The heading `level` is a `u8` in the
source, modeled as `Nat`. -/
inductive Block where
  | Paragraph (content : List Inline)
  | Heading (level : Nat) (content : List Inline)
  | CodeBlock (language : Option String) (content : String)
  | Blockquote (content : List Block)
  | List (ordered : Bool) (items : List Block)
  | TaskList (items : List (Bool × Block))
  | Table (headers : List Inline) (rows : List (List Inline))
      (alignments : List Alignment)
  | Image (alt : String) (url : String)
  | HorizontalRule
  | BlockList (content : List Block)
deriving Repr

/-- Fence marker options for Markdown code blocks (src/md.rs `FenceStyle`). -/
inductive FenceStyle where
  | Backtick
  | Tilde
deriving Repr, DecidableEq

/-- Marker options for Markdown unordered lists (src/md.rs `ListMarker`). -/
inductive ListMarker where
  | Asterisk
  | Dash
deriving Repr, DecidableEq

/-- Markdown style configuration (src/md.rs `Style`). -/
structure MdStyle where
  codeFence : FenceStyle
  listMarker : ListMarker
  maxHeading : Nat
deriving Repr, DecidableEq

/-- Default Markdown style (src/md.rs `impl Default for Style`). -/
def MdStyle.default : MdStyle :=
  { codeFence := .Backtick, listMarker := .Dash, maxHeading := 6 }

mutual

/-- Markdown rendering of one inline node (src/md.rs `render_inline`).  The
source never reads the style in this function, so no style argument is
needed. -/
def mdRenderInline : Inline → String
  | .Text s => s
  | .Bold c => "**" ++ mdRenderInlines c ++ "**"
  | .Italic c => "*" ++ mdRenderInlines c ++ "*"
  | .Strikethrough c => "~~" ++ mdRenderInlines c ++ "~~"
  | .Code s => "`" ++ s ++ "`"
  | .Link t url => "[" ++ mdRenderInlines t ++ "](" ++ url ++ ")"
  | .Image alt url => "![" ++ alt ++ "](" ++ url ++ ")\n"
  | .LineBreak => "  \n"

/-- Markdown rendering of a sequence of inline nodes, in order
(src/lib.rs `render_with` for slices, specialized to inlines). -/
def mdRenderInlines : List Inline → String
  | [] => ""
  | i :: is => mdRenderInline i ++ mdRenderInlines is

end

mutual

/-- Markdown width measure of one inline node (src/md.rs `measure_inline`). -/
def mdMeasureInline : Inline → Nat
  | .Text s => s.length
  | .Bold c => mdMeasureList c + 4
  | .Italic c => mdMeasureList c + 4
  | .Strikethrough c => mdMeasureList c + 4
  | .Code s => s.length + 2
  | .Link t _ => 2 + mdMeasureList t
  | .Image alt url => 5 + alt.length + url.length
  | .LineBreak => 0

/-- Sum of Markdown measures over a list of inline nodes. -/
def mdMeasureList : List Inline → Nat
  | [] => 0
  | i :: is => mdMeasureInline i + mdMeasureList is

end

/-- One pass of the table width loop over a single row (src/md.rs and
src/term.rs `render_block`, `Table` arm): `widths[i] = max(widths[i],
measure(cell))` for each cell index `i` below the column count; cells beyond
the column count are ignored (`take(col_count)`), and columns the row does not
reach keep their widths. -/
def updateRow (m : Inline → Nat) : List Nat → List Inline → List Nat
  | ws, [] => ws
  | [], _ => []
  | w :: ws, c :: cs => max w (m c) :: updateRow m ws cs

/-- Column widths of a table: headers measured first, then every row folded
in, then each width clamped to a minimum of 3 (src/md.rs `render_block`,
`Table` arm). -/
def colWidths (m : Inline → Nat) (headers : List Inline)
    (rows : List (List Inline)) : List Nat :=
  (rows.foldl (updateRow m) (headers.map m)).map (fun w => max w 3)

/-- Dashes for a Markdown separator cell. -/
def mdDashes (n : Nat) : String :=
  strRep "-" n

/-- Alignment spec of one Markdown separator cell (src/md.rs `render_block`,
`Table` arm):  `Left` is `:` + `w-1` dashes, `Center` is `:` + `max(w-2,1)`
dashes + `:`, `Right` is `w-1` dashes + `:` (saturating subtraction). -/
def mdSepCell (w : Nat) (a : Alignment) : String :=
  match a with
  | .Left => ":" ++ mdDashes (w - 1)
  | .Center => ":" ++ mdDashes (max (w - 2) 1) ++ ":"
  | .Right => mdDashes (w - 1) ++ ":"

/-- Markdown separator row: the widths are zipped with the alignments, so the
row has `min headers.length alignments.length` cells (src/md.rs
`render_block`, `Table` arm). -/
def mdSepRow (widths : List Nat) (aligns : List Alignment) : String :=
  "|" ++ String.join ((widths.zip aligns).map
    (fun p => " " ++ padRight (mdSepCell p.1 p.2) p.1 ++ " |"))

/-- Markdown table header row (src/md.rs `render_block`, `Table` arm); each
header cell is rendered to a temporary string and padded to its column
width. -/
def mdHeaderRow (headers : List Inline) (widths : List Nat) : String :=
  "|" ++ String.join ((headers.zip widths).map
    (fun p => " " ++ padRight (mdRenderInline p.1) p.2 ++ " |"))

/-- Cells of one Markdown body row: iterate over column widths, rendering the
row's cell when present and an empty padded cell otherwise. -/
def mdBodyCells (row : List Inline) : Nat → List Nat → String
  | _, [] => ""
  | i, w :: ws =>
    (match row.get? i with
      | some cell => " " ++ padRight (mdRenderInline cell) w ++ " |"
      | none => " " ++ padRight "" w ++ " |") ++ mdBodyCells row (i + 1) ws

/-- Markdown body rows of a table, one line per row. -/
def mdBodyRows (widths : List Nat) : List (List Inline) → String
  | [] => ""
  | r :: rs => "|" ++ mdBodyCells r 0 widths ++ "\n" ++ mdBodyRows widths rs

mutual

/-- Markdown rendering of one block (src/md.rs `render_block`). -/
def mdRenderBlock (s : MdStyle) : Block → String
  | .Paragraph c => mdRenderInlines c ++ "\n"
  | .Heading level c =>
    strRep "#" (min level s.maxHeading) ++ " " ++ mdRenderInlines c ++ "\n"
  | .CodeBlock lang content =>
    let fence := match s.codeFence with
      | .Backtick => "```"
      | .Tilde => "~~~"
    (match lang with
      | some l => fence ++ l ++ "\n"
      | none => fence ++ "\n")
      ++ content ++ "\n" ++ fence ++ "\n" ++ "\n"
  | .List ordered items => mdListGo s ordered 0 items ++ "\n"
  | .TaskList items => mdTaskGo s items ++ "\n"
  | .Table headers rows aligns =>
    let widths := colWidths mdMeasureInline headers rows
    mdHeaderRow headers widths ++ "\n" ++ mdSepRow widths aligns ++ "\n"
      ++ mdBodyRows widths rows ++ "\n"
  | .Blockquote inner => mdQuoteGo s inner
  | .Image alt url => "![" ++ alt ++ "](" ++ url ++ ")\n"
  | .HorizontalRule => "---\n"
  | .BlockList inner => mdBlocksGo s inner

/-- Markdown rendering of a sequence of blocks in order (src/lib.rs
`render_with` for slices / the `BlockList` arm). -/
def mdBlocksGo (s : MdStyle) : List Block → String
  | [] => ""
  | b :: bs => mdRenderBlock s b ++ mdBlocksGo s bs

/-- Markdown list items: marker (1-based index for ordered lists, the
configured marker otherwise), item, newline, for each item. -/
def mdListGo (s : MdStyle) (ordered : Bool) : Nat → List Block → String
  | _, [] => ""
  | idx, b :: bs =>
    (if ordered then toString (idx + 1) ++ ". "
      else (match s.listMarker with
        | .Asterisk => "*"
        | .Dash => "-") ++ " ")
      ++ mdRenderBlock s b ++ "\n" ++ mdListGo s ordered (idx + 1) bs

/-- Markdown task-list items: `- [x] ` or `- [ ] `, item, newline. -/
def mdTaskGo (s : MdStyle) : List (Bool × Block) → String
  | [] => ""
  | (checked, b) :: bs =>
    "- [" ++ (if checked then "x" else " ") ++ "] "
      ++ mdRenderBlock s b ++ "\n" ++ mdTaskGo s bs

/-- Markdown blockquote children: each child is rendered to a temporary
string with the same style, trailing whitespace trimmed, every line prefixed
with `> `, and a lone `>` line emitted between consecutive children
(src/md.rs `render_block`, `Blockquote` arm). -/
def mdQuoteGo (s : MdStyle) : List Block → String
  | [] => ""
  | [b] =>
    String.join ((rustLines (rustTrimEnd (mdRenderBlock s b))).map
      (fun line => "> " ++ line ++ "\n"))
  | b :: bs =>
    String.join ((rustLines (rustTrimEnd (mdRenderBlock s b))).map
      (fun line => "> " ++ line ++ "\n"))
      ++ ">\n" ++ mdQuoteGo s bs

end

/-- ANSI reset code (src/term.rs `Style::RESET`). -/
def ansiReset : String := "\x1b[0m"

/-- ANSI bold code (src/term.rs `Style::BOLD`). -/
def ansiBold : String := "\x1b[1m"

/-- ANSI dim code (src/term.rs `Style::DIM`). -/
def ansiDim : String := "\x1b[2m"

/-- ANSI italic code (src/term.rs `Style::ITALIC`). -/
def ansiItalic : String := "\x1b[3m"

/-- ANSI underline code (src/term.rs `Style::UNDERLINE`). -/
def ansiUnderline : String := "\x1b[4m"

/-- ANSI strikethrough code (src/term.rs `Style::STRIKETHROUGH`). -/
def ansiStrike : String := "\x1b[9m"

/-- ANSI bright cyan code (src/term.rs `Style::BRIGHT_CYAN`), hardcoded for
table header cells. -/
def ansiBrightCyan : String := "\x1b[96m"

/-- Terminal style configuration (src/term.rs `Style`); the six heading
colors are modeled as a list. -/
structure TermStyle where
  useColors : Bool
  useUnicodeBoxes : Bool
  headingColors : List String
  codeColor : String
  codeBg : String
  linkColor : String
  listColor : String
  borderColor : String
deriving Repr, DecidableEq

/-- Default terminal style (src/term.rs `impl Default for Style`): colors and
Unicode boxes on; heading colors BRIGHT_CYAN, CYAN, BRIGHT_BLUE, BLUE,
BRIGHT_WHITE, BRIGHT_WHITE; GREEN code on BG_BLACK; BRIGHT_BLUE links;
BRIGHT_YELLOW list markers; BRIGHT_BLACK borders. -/
def TermStyle.default : TermStyle :=
  { useColors := true
    useUnicodeBoxes := true
    headingColors :=
      ["\x1b[96m", "\x1b[36m", "\x1b[94m", "\x1b[34m", "\x1b[97m", "\x1b[97m"]
    codeColor := "\x1b[32m"
    codeBg := "\x1b[40m"
    linkColor := "\x1b[94m"
    listColor := "\x1b[93m"
    borderColor := "\x1b[90m" }

/-- Model of `Renderer::color` (src/term.rs): the code when colors are on,
the empty string otherwise. -/
def TermStyle.color (s : TermStyle) (code : String) : String :=
  if s.useColors then code else ""

/-- Heading color / glyph index (src/term.rs `render_block`, `Heading` arm):
`(level as usize - 1).min(5)`, with the `usize` subtraction wrapping modulo
`2 ^ 64` (release semantics), so level 0 yields index 5. -/
def termLevelIdx (level : Nat) : Nat :=
  min ((level + (2 ^ 64 - 1)) % 2 ^ 64) 5

/-- Heading glyphs by index (src/term.rs `render_block`, `Heading` arm). -/
def termHeadingGlyphs (uni : Bool) : List String :=
  if uni then ["█ ", "▓ ", "▒ ", "░ ", "• ", "• "]
  else ["# ", "## ", "### ", "#### ", "##### ", "###### "]

mutual

/-- Terminal width measure of one inline node (src/term.rs `measure_inline`).
`LineBreak` hits `unreachable!`, modeled as `none`. -/
def termMeasureInline : Inline → Option Nat
  | .Text t => some t.length
  | .Bold c => termMeasureList c
  | .Italic c => termMeasureList c
  | .Strikethrough c => termMeasureList c
  | .Code t => some t.length
  | .Link t _ => termMeasureList t
  | .Image alt url => some (alt.length + url.length)
  | .LineBreak => none

/-- Sum of terminal measures over a list, propagating the panic. -/
def termMeasureList : List Inline → Option Nat
  | [] => some 0
  | i :: is =>
    match termMeasureInline i with
    | none => none
    | some v => (termMeasureList is).map (fun r => v + r)

end

mutual

/-- Plain-text projection of one inline node (src/term.rs `to_plain_string`).
`Image` hits `unimplemented!` and `LineBreak` hits `unreachable!`, both
modeled as `none`. -/
def termToPlainString : Inline → Option String
  | .Text t => some t
  | .Bold c => termToPlainList c
  | .Italic c => termToPlainList c
  | .Strikethrough c => termToPlainList c
  | .Code t => some t
  | .Link t _ => termToPlainList t
  | .Image _ _ => none
  | .LineBreak => none

/-- Concatenated plain text of a list of inline nodes. -/
def termToPlainList : List Inline → Option String
  | [] => some ""
  | i :: is =>
    match termToPlainString i with
    | none => none
    | some v => (termToPlainList is).map (fun r => v ++ r)

end

/-- Terminal measures of all header cells (the `headers.iter().map(...)`
collect in the `Table` arms); a panic in any cell aborts. -/
def measureAll (m : Inline → Option Nat) : List Inline → Option (List Nat)
  | [] => some []
  | c :: cs =>
    match m c with
    | none => none
    | some v => (measureAll m cs).map (fun r => v :: r)

/-- Panic-aware variant of `updateRow` for the terminal measure: `none` when
measuring any cell within the column count panics. -/
def updateRowO (m : Inline → Option Nat) : List Nat → List Inline →
    Option (List Nat)
  | ws, [] => some ws
  | [], _ => some []
  | w :: ws, c :: cs =>
    match m c with
    | none => none
    | some v => (updateRowO m ws cs).map (fun r => max w v :: r)

/-- Panic-aware column widths for the terminal table (src/term.rs
`render_block`, `Table` arm): header measures, row folding, clamp to 3. -/
def colWidthsO (m : Inline → Option Nat) (headers : List Inline)
    (rows : List (List Inline)) : Option (List Nat) :=
  match measureAll m headers with
  | none => none
  | some init =>
    (rows.foldl (fun ows row => ows.bind (fun ws => updateRowO m ws row))
      (some init)).map (List.map (fun w => max w 3))

/-- Vertical bar glyph for terminal tables. -/
def termV (s : TermStyle) : String :=
  if s.useUnicodeBoxes then "│" else "|"

/-- Model of `Renderer::align_text` (src/term.rs): text at least as wide as
the column is returned unchanged; otherwise pad per the alignment, center
putting the smaller half of the padding on the left. -/
def alignText (text : String) (width : Nat) (a : Alignment) : String :=
  if width ≤ text.length then text
  else
    let padding := width - text.length
    match a with
    | .Left => padRight text width
    | .Center => strRep " " (padding / 2) ++ text ++ strRep " " (padding - padding / 2)
    | .Right => padLeft text width

/-- Horizontal border segments of a terminal table: `h.repeat(w + 2)` per
column with a joint glyph between columns. -/
def termBorderCells (hch joint : String) : List Nat → String
  | [] => ""
  | [w] => strRep hch (w + 2)
  | w :: ws => strRep hch (w + 2) ++ joint ++ termBorderCells hch joint ws

/-- Header cells of a terminal table (src/term.rs `render_block`, `Table`
arm): each header plain-printed, aligned to its column width, bracketed in
BOLD + BRIGHT_CYAN and followed by the vertical bar. -/
def termHeaderCellsGo (s : TermStyle) (widths : List Nat)
    (aligns : List Alignment) : Nat → List Inline → Option String
  | _, [] => some ""
  | i, cell :: rest =>
    match termToPlainString cell with
    | none => none
    | some plain =>
      (termHeaderCellsGo s widths aligns (i + 1) rest).map (fun r =>
        " " ++ s.color ansiBold ++ s.color ansiBrightCyan
          ++ alignText plain (widths.getD i 0) (aligns.getD i .Left)
          ++ s.color ansiReset ++ " " ++ s.color ansiDim ++ s.color s.borderColor
          ++ termV s ++ s.color ansiReset ++ r)

/-- Cells of one terminal body row: iterate over column widths; a present
cell is plain-printed and aligned, a missing cell renders as spaces. -/
def termBodyCellsGo (s : TermStyle) (aligns : List Alignment)
    (row : List Inline) : Nat → List Nat → Option String
  | _, [] => some ""
  | i, w :: ws =>
    match row.get? i with
    | some cell =>
      match termToPlainString cell with
      | none => none
      | some plain =>
        (termBodyCellsGo s aligns row (i + 1) ws).map (fun r =>
          " " ++ alignText plain w (aligns.getD i .Left) ++ " "
            ++ s.color ansiDim ++ s.color s.borderColor ++ termV s
            ++ s.color ansiReset ++ r)
    | none =>
      (termBodyCellsGo s aligns row (i + 1) ws).map (fun r =>
        " " ++ padRight "" w ++ " " ++ s.color ansiDim ++ s.color s.borderColor
          ++ termV s ++ s.color ansiReset ++ r)

/-- Terminal table body rows, one line per row. -/
def termBodyRowsGo (s : TermStyle) (ind : Nat) (widths : List Nat)
    (aligns : List Alignment) : List (List Inline) → Option String
  | [] => some ""
  | row :: rest =>
    match termBodyCellsGo s aligns row 0 widths with
    | none => none
    | some cells =>
      (termBodyRowsGo s ind widths aligns rest).map (fun r =>
        indentStr ind ++ s.color ansiDim ++ s.color s.borderColor ++ termV s
          ++ s.color ansiReset ++ cells ++ "\n" ++ r)

/-- Terminal rendering of a `Table` block (src/term.rs `render_block`,
`Table` arm): width computation, top border, header row, separator border,
body rows, bottom border, trailing blank line. -/
def termRenderTable (s : TermStyle) (ind : Nat) (headers : List Inline)
    (rows : List (List Inline)) (aligns : List Alignment) : Option String :=
  match colWidthsO termMeasureInline headers rows with
  | none => none
  | some widths =>
    let uni := s.useUnicodeBoxes
    let hch := if uni then "─" else "-"
    match termHeaderCellsGo s widths aligns 0 headers with
    | none => none
    | some headerCells =>
      match termBodyRowsGo s ind widths aligns rows with
      | none => none
      | some bodyStr =>
        some (indentStr ind ++ s.color ansiDim ++ s.color s.borderColor
            ++ (if uni then "┌" else "+")
            ++ termBorderCells hch (if uni then "┬" else "+") widths
            ++ (if uni then "┐" else "+") ++ s.color ansiReset ++ "\n"
          ++ indentStr ind ++ s.color ansiDim ++ s.color s.borderColor
            ++ termV s ++ s.color ansiReset ++ headerCells ++ "\n"
          ++ indentStr ind ++ s.color ansiDim ++ s.color s.borderColor
            ++ (if uni then "├" else "+")
            ++ termBorderCells hch (if uni then "┼" else "+") widths
            ++ (if uni then "┤" else "+") ++ s.color ansiReset ++ "\n"
          ++ bodyStr
          ++ indentStr ind ++ s.color ansiDim ++ s.color s.borderColor
            ++ (if uni then "└" else "+")
            ++ termBorderCells hch (if uni then "┴" else "+") widths
            ++ (if uni then "┘" else "+") ++ s.color ansiReset ++ "\n"
          ++ "\n")

mutual

/-- Terminal rendering of one inline node (src/term.rs `render_inline`).
`Image` hits `unimplemented!`, modeled as `none`. -/
def termRenderInline (s : TermStyle) (ind : Nat) : Inline → Option String
  | .Text t => some t
  | .Bold c =>
    (termRenderInlines s ind c).map (fun r =>
      s.color ansiBold ++ r ++ s.color ansiReset)
  | .Italic c =>
    (termRenderInlines s ind c).map (fun r =>
      s.color ansiItalic ++ r ++ s.color ansiReset)
  | .Strikethrough c =>
    (termRenderInlines s ind c).map (fun r =>
      s.color ansiStrike ++ r ++ s.color ansiReset)
  | .Code t =>
    some (s.color s.codeBg ++ s.color s.codeColor ++ t ++ s.color ansiReset
      ++ s.color ansiReset)
  | .Link t url =>
    (termRenderInlines s ind t).map (fun r =>
      s.color ansiUnderline ++ s.color s.linkColor ++ r ++ s.color ansiReset
        ++ " " ++ s.color ansiDim ++ s.color s.borderColor ++ "(" ++ url ++ ")"
        ++ s.color ansiReset)
  | .Image _ _ => none
  | .LineBreak => some ("\n" ++ indentStr ind)

/-- Terminal rendering of a sequence of inline nodes in order. -/
def termRenderInlines (s : TermStyle) (ind : Nat) : List Inline → Option String
  | [] => some ""
  | i :: is =>
    match termRenderInline s ind i with
    | none => none
    | some r => (termRenderInlines s ind is).map (fun rest => r ++ rest)

end

mutual

/-- Terminal rendering of one block (src/term.rs `render_block`).  The block
`Image` arm hits `unimplemented!`, modeled as `none`. -/
def termRenderBlock (s : TermStyle) (ind : Nat) : Block → Option String
  | .Paragraph c =>
    (termRenderInlines s ind c).map (fun r =>
      indentStr ind ++ r ++ s.color ansiReset ++ "\n")
  | .Heading level c =>
    (termRenderInlines s ind c).map (fun r =>
      "\n" ++ indentStr ind ++ s.color ansiBold
        ++ s.color (s.headingColors.getD (termLevelIdx level) "")
        ++ (termHeadingGlyphs s.useUnicodeBoxes).getD (termLevelIdx level) ""
        ++ r ++ s.color ansiReset ++ "\n" ++ "\n")
  | .CodeBlock lang content =>
    let top := if s.useUnicodeBoxes then "┌─" else "+--"
    let leftBar := if s.useUnicodeBoxes then "│" else "|"
    let bottom := if s.useUnicodeBoxes then "└─" else "+--"
    some ("\n" ++ indentStr ind
      ++ (match lang with
        | some l =>
          s.color ansiDim ++ s.color s.borderColor ++ top ++ "[ " ++ l ++ " ]"
            ++ s.color ansiReset ++ "\n"
        | none =>
          s.color ansiDim ++ s.color s.borderColor ++ top ++ "────"
            ++ s.color ansiReset ++ "\n")
      ++ String.join ((rustLines content).map (fun line =>
        indentStr ind ++ s.color ansiDim ++ s.color s.borderColor ++ leftBar
          ++ s.color ansiReset ++ " " ++ s.color s.codeColor ++ line ++ "\n"))
      ++ indentStr ind ++ s.color ansiDim ++ s.color s.borderColor ++ bottom
        ++ "────" ++ s.color ansiReset ++ "\n"
      ++ "\n")
  | .List ordered items =>
    (termListGo s ind ordered 0 items).map (fun r => r ++ "\n")
  | .TaskList items => (termTaskGo s ind items).map (fun r => r ++ "\n")
  | .Table headers rows aligns => termRenderTable s ind headers rows aligns
  | .Blockquote inner => (termQuoteGo s ind inner).map (fun r => r ++ "\n")
  | .Image _ _ => none
  | .HorizontalRule =>
    some (indentStr ind ++ s.color ansiDim ++ s.color s.borderColor
      ++ strRep (if s.useUnicodeBoxes then "─" else "-") 50
      ++ s.color ansiReset ++ "\n" ++ "\n")
  | .BlockList inner => termBlocksGo s ind inner

/-- Terminal rendering of a sequence of blocks in order (src/lib.rs
`render_with` for slices / the `BlockList` arm). -/
def termBlocksGo (s : TermStyle) (ind : Nat) : List Block → Option String
  | [] => some ""
  | b :: bs =>
    match termRenderBlock s ind b with
    | none => none
    | some r => (termBlocksGo s ind bs).map (fun rest => r ++ rest)

/-- Terminal list items: indent, list color, marker (1-based number for
ordered, bullet otherwise), space, reset, then the item block at the same
indent level. -/
def termListGo (s : TermStyle) (ind : Nat) (ordered : Bool) :
    Nat → List Block → Option String
  | _, [] => some ""
  | idx, b :: bs =>
    match termRenderBlock s ind b with
    | none => none
    | some r =>
      (termListGo s ind ordered (idx + 1) bs).map (fun rest =>
        indentStr ind ++ s.color s.listColor
          ++ (if ordered then toString (idx + 1) ++ "."
            else if s.useUnicodeBoxes then "•" else "*")
          ++ " " ++ s.color ansiReset ++ r ++ rest)

/-- Terminal task-list items: indent, list color, checkbox glyph, space,
reset, item block. -/
def termTaskGo (s : TermStyle) (ind : Nat) :
    List (Bool × Block) → Option String
  | [] => some ""
  | (checked, b) :: bs =>
    match termRenderBlock s ind b with
    | none => none
    | some r =>
      (termTaskGo s ind bs).map (fun rest =>
        indentStr ind ++ s.color s.listColor
          ++ (if s.useUnicodeBoxes then (if checked then "☑" else "☐")
            else if checked then "[x]" else "[ ]")
          ++ " " ++ s.color ansiReset ++ r ++ rest)

/-- Terminal blockquote children (src/term.rs `render_block`, `Blockquote`
arm): each child is rendered into a temporary buffer by a fresh renderer
whose indent level starts at 0 (the `indent_level += 1` around the call does
not reach the fresh renderer), then every buffer line is emitted as the
outer indent, the bar glyph, a space and the line. -/
def termQuoteGo (s : TermStyle) (ind : Nat) : List Block → Option String
  | [] => some ""
  | b :: bs =>
    match termRenderBlock s 0 b with
    | none => none
    | some buf =>
      (termQuoteGo s ind bs).map (fun rest =>
        String.join ((rustLines buf).map (fun line =>
          indentStr ind ++ s.color ansiDim ++ s.color s.borderColor
            ++ (if s.useUnicodeBoxes then "▎" else "|") ++ s.color ansiReset
            ++ " " ++ line ++ "\n")) ++ rest)

end

/-- Written from the claim and spec §4.2 (`Blockquote`), for comparison with
the source's behavior: each child block rendered into a temporary buffer with
the indent level incremented to `ind + 1`, each buffer line then emitted as
the outer indent, the bar glyph, a space and the line. -/
def termQuoteSpecGo (s : TermStyle) (ind : Nat) : List Block → Option String
  | [] => some ""
  | b :: bs =>
    match termRenderBlock s (ind + 1) b with
    | none => none
    | some buf =>
      (termQuoteSpecGo s ind bs).map (fun rest =>
        String.join ((rustLines buf).map (fun line =>
          indentStr ind ++ s.color ansiDim ++ s.color s.borderColor
            ++ (if s.useUnicodeBoxes then "▎" else "|") ++ s.color ansiReset
            ++ " " ++ line ++ "\n")) ++ rest)

/-- Model of slice rendering (src/lib.rs `impl Renderable for [U]`,
`render_with`): render each element in order against an explicit renderer
state, stop at the first failing element and surface its error.  The result's
second component is `none` for `Ok(())` and `some e` for `Err(e)`; the first
component is the renderer state (e.g. the sink contents) reached so far. -/
def renderSeq {α σ ε : Type _} (step : α → σ → σ × Option ε) :
    List α → σ → σ × Option ε
  | [], s => (s, none)
  | x :: xs, s =>
    match step x s with
    | (s', none) => renderSeq step xs s'
    | (s', some e) => (s', some e)

/-- Terminal style with colors and Unicode boxes both disabled, as the
repository's own tests build it (`Style::ascii()` then `use_colors = false`). -/
def TermStyle.plainAscii : TermStyle :=
  { TermStyle.default with useColors := false, useUnicodeBoxes := false }

mutual

/-- True when the inline contains no `LineBreak` and no `Image` node, the
two constructors whose terminal table handling panics. -/
def cleanInline : Inline → Bool
  | .Text _ => true
  | .Bold c => cleanList c
  | .Italic c => cleanList c
  | .Strikethrough c => cleanList c
  | .Code _ => true
  | .Link t _ => cleanList t
  | .Image _ _ => false
  | .LineBreak => false

/-- Every member of the list is clean. -/
def cleanList : List Inline → Bool
  | [] => true
  | i :: is => cleanInline i && cleanList is

end

/-- Concrete fallible step used to exercise `renderSeq`: the state sums the
elements and the element 7 fails. -/
def stepDemo : Nat → Nat → Nat × Option String :=
  fun a s => (s + a, if a = 7 then some "boom" else none)

/-- Whether measuring a row panics: `true` when every cell within the first
`n` positions (the column count) measures without panicking.  Characterizes
`updateRowO` (see `updateRowO_eq`). -/
def rowOkN (m : Inline → Option Nat) : Nat → List Inline → Bool
  | _, [] => true
  | 0, _ :: _ => true
  | n + 1, c :: cs => (m c).isSome && rowOkN m n cs

/- Theorems. -/

/-- Character data of a repeated single-character string. -/
theorem strRep_hash_data (n : Nat) : (strRep "#" n).data = List.replicate n '#' := by
  induction n with
  | zero => rfl
  | succ n ih => simp [strRep, String.data_append, ih, List.replicate]

/-- Character data of `mdDashes`. -/
theorem mdDashes_data (n : Nat) : (mdDashes n).data = List.replicate n '-' := by
  induction n with
  | zero => rfl
  | succ n ih => simpa [mdDashes, strRep, String.data_append, List.replicate]
      using ih

/-- Length of `mdDashes`. -/
theorem mdDashes_length (n : Nat) : (mdDashes n).length = n := by
  show (mdDashes n).data.length = n
  simp [mdDashes_data]

/-- C7.  For every Heading block with level `L` and every Markdown style with
`max_heading` `m`, the Markdown output of that heading begins with exactly
`min L m` `#` characters followed by one space character. -/
theorem md_heading_clamp (s : MdStyle) (level : Nat) (content : List Inline) :
    (mdRenderBlock s (.Heading level content)).data.take
        (min level s.maxHeading + 1)
      = List.replicate (min level s.maxHeading) '#' ++ [' '] := by
  have hdata : (mdRenderBlock s (.Heading level content)).data
      = List.replicate (min level s.maxHeading) '#'
        ++ ([' '] ++ ((mdRenderInlines content).data ++ ['\n'])) := by
    simp [mdRenderBlock, String.data_append, strRep_hash_data,
      List.append_assoc]
  rw [hdata]
  rw [show min level s.maxHeading + 1
      = (List.replicate (min level s.maxHeading) '#').length + 1 by simp]
  rw [List.take_append]
  simp

/-- C8.  Rendering the two-paragraph blockquote with the Markdown renderer
under the default style yields exactly `"> First.\n>\n> Second.\n"`, whose
trimmed form is `"> First.\n>\n> Second."`. -/
theorem md_blockquote_two_paragraphs :
    mdRenderBlock MdStyle.default (.Blockquote
        [.Paragraph [.Text "First."], .Paragraph [.Text "Second."]])
      = "> First.\n>\n> Second.\n"
    ∧ rustTrim (mdRenderBlock MdStyle.default (.Blockquote
        [.Paragraph [.Text "First."], .Paragraph [.Text "Second."]]))
      = "> First.\n>\n> Second." := by
  constructor <;> decide

/-- C1 counterexample.  With two headers and a single `Left` alignment, the
Markdown separator row has a single cell (`zip` truncation); were the missing
column defaulted to `Left`, the output would equal the two-alignment render,
but the two differ. -/
theorem md_table_sep_truncated_cex :
    mdRenderBlock MdStyle.default (.Table [.Text "aaa", .Text "bbb"] [] [.Left])
      = "| aaa | bbb |\n| :-- |\n\n"
    ∧ mdRenderBlock MdStyle.default
        (.Table [.Text "aaa", .Text "bbb"] [] [.Left, .Left])
      = "| aaa | bbb |\n| :-- | :-- |\n\n"
    ∧ ("| aaa | bbb |\n| :-- |\n\n" : String)
      ≠ "| aaa | bbb |\n| :-- | :-- |\n\n" := by
  refine ⟨by decide, by decide, by decide⟩

/-- C2 counterexample.  A level-0 heading renders in Markdown with zero `#`
characters (not as level 1), and the terminal renderer's wrapped index
`(0 - 1).min(5)` is 5, selecting the level-6 color and glyph, not the
level-1 ones. -/
theorem heading_level0_cex :
    mdRenderBlock MdStyle.default (.Heading 0 [.Text "x"]) = " x\n"
    ∧ mdRenderBlock MdStyle.default (.Heading 1 [.Text "x"]) = "# x\n"
    ∧ (" x\n" : String) ≠ "# x\n"
    ∧ termLevelIdx 0 = 5
    ∧ termRenderBlock TermStyle.default 0 (.Heading 0 [.Text "x"])
      = some "\n\x1b[1m\x1b[97m• x\x1b[0m\n\n"
    ∧ termRenderBlock TermStyle.default 0 (.Heading 1 [.Text "x"])
      = some "\n\x1b[1m\x1b[96m█ x\x1b[0m\n\n" := by
  refine ⟨by decide, by decide, by decide, by decide, by decide, by decide⟩

/-- C3 counterexample.  A one-column table whose width clamps to 3 with a
`Center` alignment yields the separator cell `":-:"`, which contains a single
dash, not at least three. -/
theorem md_sep_dash_floor_cex :
    mdRenderBlock MdStyle.default (.Table [.Text "a"] [] [.Center])
      = "| a   |\n| :-: |\n\n"
    ∧ mdSepCell 3 .Center = ":-:"
    ∧ countDash ":-:" = 1 := by
  refine ⟨by decide, by decide, by decide⟩

/-- C4.  With `use_unicode_boxes = false` the terminal code-block frames
still contain the hardcoded Unicode dashes `────`: the ASCII render of a
language-less code block is `"\n+--────\n| x\n+--────\n\n"`, which contains
the box-drawing character `─`. -/
theorem term_codeblock_ascii_emits_box_dash :
    termRenderBlock TermStyle.plainAscii 0 (.CodeBlock none "x")
      = some "\n+--────\n| x\n+--────\n\n"
    ∧ '─' ∈ ("\n+--────\n| x\n+--────\n\n" : String).data := by
  refine ⟨by decide, by decide⟩

/-- C5 counterexample.  The terminal blockquote renders its child with a
fresh renderer at indent level 0, so the output is `"| hi\n\n"`; rendering
the child at the incremented indent level — as the claim states — would give
`"|   hi\n\n"` instead. -/
theorem term_blockquote_indent_cex :
    termRenderBlock TermStyle.plainAscii 0 (.Blockquote [.Paragraph [.Text "hi"]])
      = some "| hi\n\n"
    ∧ (termQuoteSpecGo TermStyle.plainAscii 0 [.Paragraph [.Text "hi"]]).map
        (fun r => r ++ "\n") = some "|   hi\n\n"
    ∧ (some "| hi\n\n" : Option String) ≠ some "|   hi\n\n" := by
  refine ⟨by decide, by decide, by decide⟩

/-- Updating widths with a row preserves the number of columns. -/
theorem updateRow_length (m : Inline → Nat) :
    ∀ (ws : List Nat) (row : List Inline),
      (updateRow m ws row).length = ws.length := by
  intro ws
  induction ws with
  | nil => intro row; cases row <;> simp [updateRow]
  | cons w ws ih =>
    intro row
    cases row with
    | nil => simp [updateRow]
    | cons c cs => simp [updateRow, ih]

/-- A table has exactly one computed width per header column. -/
theorem colWidths_length (m : Inline → Nat) (headers : List Inline)
    (rows : List (List Inline)) :
    (colWidths m headers rows).length = headers.length := by
  have h : ∀ (rs : List (List Inline)) (init : List Nat),
      (rs.foldl (updateRow m) init).length = init.length := by
    intro rs
    induction rs with
    | nil => intro init; simp
    | cons r rs ih => intro init; simp [List.foldl_cons, ih, updateRow_length]
  simp [colWidths, h]

/-- C1 amended.  The Markdown separator row is built by zipping the column
widths with the alignments vector, so it has `min headers.len alignments.len`
cells; columns beyond the alignments vector are omitted rather than defaulted
to `Left`. -/
theorem md_table_sep_cells (s : MdStyle) (headers : List Inline)
    (rows : List (List Inline)) (aligns : List Alignment) :
    (∃ pre post, mdRenderBlock s (.Table headers rows aligns)
      = pre ++ mdSepRow (colWidths mdMeasureInline headers rows) aligns ++ post)
    ∧ ((colWidths mdMeasureInline headers rows).zip aligns).length
      = min headers.length aligns.length := by
  constructor
  · exact ⟨mdHeaderRow headers (colWidths mdMeasureInline headers rows) ++ "\n",
      "\n" ++ mdBodyRows (colWidths mdMeasureInline headers rows) rows ++ "\n",
      by simp [mdRenderBlock, String.append_assoc]⟩
  · simp [List.length_zip, colWidths_length]

/-- C2 amended.  A level-0 heading is tolerated by both renderers, but not as
level 1: the Markdown output starts with zero `#` characters (the clamp is
`min 0 m = 0`), and the terminal index wraps to `usize::MAX` and clamps to 5,
so level 0 renders exactly like level 6. -/
theorem heading_level0_amended :
    (∀ (s : MdStyle) (content : List Inline),
      mdRenderBlock s (.Heading 0 content)
        = " " ++ mdRenderInlines content ++ "\n")
    ∧ termLevelIdx 0 = 5
    ∧ (∀ (ts : TermStyle) (ind : Nat) (content : List Inline),
      termRenderBlock ts ind (.Heading 0 content)
        = termRenderBlock ts ind (.Heading 6 content)) := by
  refine ⟨?_, by decide, ?_⟩
  · intro s content
    simp [mdRenderBlock, strRep, Nat.zero_min, String.empty_append]
  · intro ts ind content
    have h : termLevelIdx 0 = termLevelIdx 6 := by decide
    simp [termRenderBlock, h]

/-- Dash counting distributes over string append. -/
theorem countDash_append (s t : String) :
    countDash (s ++ t) = countDash s + countDash t := by
  simp [countDash, String.data_append, List.count_append]

/-- All characters of `mdDashes n` are dashes. -/
theorem countDash_dashes (n : Nat) : countDash (mdDashes n) = n := by
  simp [countDash, mdDashes_data, List.count_replicate]

/-- Every clamped column width is at least 3. -/
theorem colWidths_ge_three (m : Inline → Nat) (headers : List Inline)
    (rows : List (List Inline)) :
    ∀ w ∈ colWidths m headers rows, 3 ≤ w := by
  intro w hw
  simp only [colWidths, List.mem_map] at hw
  obtain ⟨v, _, rfl⟩ := hw
  omega

/-- C3 amended.  Every Markdown separator cell generated for a table has an
alignment spec of at least 3 characters (colons included, matching the
source's `at least 3 chars for separator row` clamp) and contains at least
one dash; `Left`/`Right` specs have `w − 1 ≥ 2` dashes but `Center` can have
a single dash (`":-:"` at width 3). -/
theorem md_sep_cell_floor (headers : List Inline) (rows : List (List Inline))
    (aligns : List Alignment) :
    ∀ p ∈ (colWidths mdMeasureInline headers rows).zip aligns,
      3 ≤ (mdSepCell p.1 p.2).length ∧ 1 ≤ countDash (mdSepCell p.1 p.2) := by
  rintro ⟨w, a⟩ hp
  have hw : 3 ≤ w :=
    colWidths_ge_three mdMeasureInline headers rows w (List.of_mem_zip hp).1
  have hcolon : (":" : String).length = 1 := by decide
  have hdcolon : countDash ":" = 0 := by decide
  cases a <;>
    refine ⟨?_, ?_⟩ <;>
    simp [mdSepCell, String.length_append, mdDashes_length, hcolon,
      countDash_append, countDash_dashes, hdcolon] <;>
    omega

/-- Witness for `md_sep_cell_floor` at a concrete one-column table. -/
theorem md_sep_cell_floor_witness :
    3 ≤ (mdSepCell 3 Alignment.Left).length
    ∧ 1 ≤ countDash (mdSepCell 3 Alignment.Left) :=
  md_sep_cell_floor [Inline.Text "a"] [] [Alignment.Left] (3, Alignment.Left)
    (by decide)

/-- C5 amended.  The terminal blockquote renders each child into a temporary
buffer with a fresh renderer whose indent level is 0 (the increment around
the call never reaches the fresh renderer), then emits every buffer line as
outer indent + bar glyph + space + line. -/
theorem term_blockquote_child_indent0 (s : TermStyle) (ind : Nat) (b : Block) :
    termRenderBlock s ind (.Blockquote [b])
      = (termRenderBlock s 0 b).map (fun buf =>
          String.join ((rustLines buf).map (fun line =>
            indentStr ind ++ s.color ansiDim ++ s.color s.borderColor
              ++ (if s.useUnicodeBoxes then "▎" else "|") ++ s.color ansiReset
              ++ " " ++ line ++ "\n")) ++ "\n") := by
  cases h : termRenderBlock s 0 b <;>
    simp [termRenderBlock, termQuoteGo, h, String.append_empty]

/-- C6.  Rendering a sequence of renderables processes elements in order
(success on a prefix continues with the reached state), and when the first
failing element is reached its error becomes the sequence's result, with the
elements after it never rendered (the result equals that of the sequence cut
right after the failing element). -/
theorem renderSeq_spec {α σ ε : Type _} (step : α → σ → σ × Option ε)
    (pre post : List α) (x : α) (s : σ) :
    ((renderSeq step pre s).2 = none →
      renderSeq step (pre ++ post) s
        = renderSeq step post (renderSeq step pre s).1)
    ∧ (∀ e : ε, (renderSeq step pre s).2 = none →
      (step x (renderSeq step pre s).1).2 = some e →
        renderSeq step (pre ++ x :: post) s
          = ((step x (renderSeq step pre s).1).1, some e)
        ∧ renderSeq step (pre ++ x :: post) s
          = renderSeq step (pre ++ [x]) s) := by
  have hseq : ∀ (pre : List α) (st : σ), (renderSeq step pre st).2 = none →
      ∀ rest, renderSeq step (pre ++ rest) st
        = renderSeq step rest (renderSeq step pre st).1 := by
    intro pre
    induction pre with
    | nil => intro st _ rest; rfl
    | cons y ys ih =>
      intro st h rest
      cases hy : step y st with
      | mk s1 e1 =>
        cases e1 with
        | none =>
          have h2 : renderSeq step (y :: ys) st = renderSeq step ys s1 := by
            simp [renderSeq, hy]
          have h3 : (renderSeq step ys s1).2 = none := by
            rw [h2] at h; exact h
          calc renderSeq step ((y :: ys) ++ rest) st
              = renderSeq step (ys ++ rest) s1 := by simp [renderSeq, hy]
            _ = renderSeq step rest (renderSeq step ys s1).1 := ih s1 h3 rest
            _ = renderSeq step rest (renderSeq step (y :: ys) st).1 := by
                rw [h2]
        | some e =>
          exfalso
          simp [renderSeq, hy] at h
  constructor
  · intro h
    exact hseq pre s h post
  · intro e h hx
    have hcut : ∀ rest, renderSeq step (pre ++ x :: rest) s
        = ((step x (renderSeq step pre s).1).1, some e) := by
      intro rest
      rw [hseq pre s h (x :: rest)]
      cases hsx : step x (renderSeq step pre s).1 with
      | mk s2 e2 =>
        rw [hsx] at hx
        simp at hx
        subst hx
        simp [renderSeq, hsx]
    refine ⟨hcut post, ?_⟩
    rw [hcut post, show pre ++ [x] = pre ++ x :: [] from rfl, hcut []]

/-- Witness for `renderSeq_spec`: the element 7 of `stepDemo` fails, the
elements before it are rendered in order and the element after it is not. -/
theorem renderSeq_spec_witness :
    renderSeq stepDemo ([1, 2] ++ 7 :: [9]) 0
      = ((stepDemo 7 (renderSeq stepDemo [1, 2] 0).1).1, some "boom")
    ∧ renderSeq stepDemo ([1, 2] ++ 7 :: [9]) 0
      = renderSeq stepDemo ([1, 2] ++ [7]) 0 :=
  (renderSeq_spec stepDemo [1, 2] [9] 7 0).2 "boom" (by decide) (by decide)

/-- Folding two rows into the widths vector commutes. -/
theorem updateRow_swap (m : Inline → Nat) :
    ∀ (ws : List Nat) (r1 r2 : List Inline),
      updateRow m (updateRow m ws r1) r2
        = updateRow m (updateRow m ws r2) r1 := by
  intro ws
  induction ws with
  | nil => intro r1 r2; cases r1 <;> cases r2 <;> simp [updateRow]
  | cons w ws ih =>
    intro r1 r2
    cases r1 with
    | nil => cases r2 <;> simp [updateRow]
    | cons c1 cs1 =>
      cases r2 with
      | nil => simp [updateRow]
      | cons c2 cs2 =>
        simp [updateRow, ih]
        omega

/-- A fold by a right-commutative function is invariant under permutation of
the folded list. -/
theorem foldlRightComm {α β : Type _} (f : β → α → β)
    (H : ∀ b a a', f (f b a) a' = f (f b a') a) :
    ∀ {l l' : List α}, l.Perm l' → ∀ b, l.foldl f b = l'.foldl f b := by
  intro l l' p
  induction p with
  | nil => intro b; rfl
  | cons x _ ih => intro b; simp only [List.foldl_cons]; exact ih _
  | swap x y l =>
    intro b
    show List.foldl f (f (f b y) x) l = List.foldl f (f (f b x) y) l
    rw [H]
  | trans _ _ ih1 ih2 => intro b; rw [ih1, ih2]

/-- Characterization of `updateRowO`: it succeeds exactly when every measured
cell measures, and then computes the pure `updateRow` with the measured
values. -/
theorem updateRowO_eq (m : Inline → Option Nat) :
    ∀ (ws : List Nat) (row : List Inline),
      updateRowO m ws row
        = if rowOkN m ws.length row
          then some (updateRow (fun c => (m c).getD 0) ws row)
          else none := by
  intro ws
  induction ws with
  | nil => intro row; cases row <;> simp [updateRowO, rowOkN, updateRow]
  | cons w ws ih =>
    intro row
    cases row with
    | nil => simp [updateRowO, rowOkN, updateRow]
    | cons c cs =>
      cases hc : m c with
      | none => simp [updateRowO, rowOkN, hc]
      | some v =>
        cases h : rowOkN m ws.length cs <;>
          simp [updateRowO, rowOkN, hc, ih, h, updateRow]

/-- Folding two rows into an optional widths vector commutes, including the
panic outcomes. -/
theorem stepO_swap (m : Inline → Option Nat) :
    ∀ (ows : Option (List Nat)) (r1 r2 : List Inline),
      (ows.bind (fun ws => updateRowO m ws r1)).bind
          (fun ws => updateRowO m ws r2)
        = (ows.bind (fun ws => updateRowO m ws r2)).bind
          (fun ws => updateRowO m ws r1) := by
  intro ows r1 r2
  cases ows with
  | none => rfl
  | some ws =>
    cases h1 : rowOkN m ws.length r1 <;> cases h2 : rowOkN m ws.length r2 <;>
      simp [updateRowO_eq, h1, h2, updateRow_length, updateRow_swap]

/-- Permutation invariance of the panic-aware column widths. -/
theorem colWidthsO_perm (m : Inline → Option Nat) (headers : List Inline)
    {rows rows' : List (List Inline)} (p : rows.Perm rows') :
    colWidthsO m headers rows = colWidthsO m headers rows' := by
  unfold colWidthsO
  cases hma : measureAll m headers with
  | none => rfl
  | some init =>
    have h := foldlRightComm
      (fun ows row => ows.bind (fun ws => updateRowO m ws row))
      (stepO_swap m) p (some init)
    simp only [h]

/-- C9.  The column widths computed for a table — by the Markdown renderer
(`colWidths mdMeasureInline`, used in `mdRenderBlock`) and by the terminal
renderer (`colWidthsO termMeasureInline`, used in `termRenderTable`) — are
invariant under any permutation of the table's rows: they depend only on the
multiset of measured cell widths per column. -/
theorem table_widths_row_perm (headers : List Inline)
    (rows rows' : List (List Inline)) (hperm : rows.Perm rows') :
    colWidths mdMeasureInline headers rows
      = colWidths mdMeasureInline headers rows'
    ∧ colWidthsO termMeasureInline headers rows
      = colWidthsO termMeasureInline headers rows' := by
  constructor
  · unfold colWidths
    rw [foldlRightComm (updateRow mdMeasureInline) (updateRow_swap mdMeasureInline)
      hperm]
  · exact colWidthsO_perm termMeasureInline headers hperm

/-- Witness for `table_widths_row_perm`: swapping two concrete rows leaves
both width vectors unchanged. -/
theorem table_widths_row_perm_witness :
    colWidths mdMeasureInline [Inline.Text "h"]
        [[Inline.Text "a"], [Inline.Text "bb"]]
      = colWidths mdMeasureInline [Inline.Text "h"]
        [[Inline.Text "bb"], [Inline.Text "a"]]
    ∧ colWidthsO termMeasureInline [Inline.Text "h"]
        [[Inline.Text "a"], [Inline.Text "bb"]]
      = colWidthsO termMeasureInline [Inline.Text "h"]
        [[Inline.Text "bb"], [Inline.Text "a"]] :=
  table_widths_row_perm [Inline.Text "h"]
    [[Inline.Text "a"], [Inline.Text "bb"]]
    [[Inline.Text "bb"], [Inline.Text "a"]]
    (List.Perm.swap [Inline.Text "bb"] [Inline.Text "a"] [])

mutual

/-- A clean inline measures without panicking in the terminal renderer. -/
theorem cleanInline_measure : ∀ (i : Inline), cleanInline i = true →
    (termMeasureInline i).isSome = true
  | .Text _, _ => rfl
  | .Bold c, h => cleanList_measure c (by simpa [cleanInline] using h)
  | .Italic c, h => cleanList_measure c (by simpa [cleanInline] using h)
  | .Strikethrough c, h => cleanList_measure c (by simpa [cleanInline] using h)
  | .Code _, _ => rfl
  | .Link t _, h => cleanList_measure t (by simpa [cleanInline] using h)
  | .Image _ _, _ => rfl

/-- A list of clean inlines measures without panicking. -/
theorem cleanList_measure : ∀ (l : List Inline), cleanList l = true →
    (termMeasureList l).isSome = true
  | [], _ => rfl
  | i :: is, h => by
    have h1 : cleanInline i = true := by
      have h' := h; simp [cleanList, Bool.and_eq_true] at h'; exact h'.1
    have h2 : cleanList is = true := by
      have h' := h; simp [cleanList, Bool.and_eq_true] at h'; exact h'.2
    have hm := cleanInline_measure i h1
    have hl := cleanList_measure is h2
    cases hmi : termMeasureInline i with
    | none => rw [hmi] at hm; simp at hm
    | some v =>
      cases hli : termMeasureList is with
      | none => rw [hli] at hl; simp at hl
      | some r => simp [termMeasureList, hmi, hli]

end

mutual

/-- A clean inline plain-prints without panicking in the terminal
renderer. -/
theorem cleanInline_plain : ∀ (i : Inline), cleanInline i = true →
    (termToPlainString i).isSome = true
  | .Text _, _ => rfl
  | .Bold c, h => cleanList_plain c (by simpa [cleanInline] using h)
  | .Italic c, h => cleanList_plain c (by simpa [cleanInline] using h)
  | .Strikethrough c, h => cleanList_plain c (by simpa [cleanInline] using h)
  | .Code _, _ => rfl
  | .Link t _, h => cleanList_plain t (by simpa [cleanInline] using h)

/-- A list of clean inlines plain-prints without panicking. -/
theorem cleanList_plain : ∀ (l : List Inline), cleanList l = true →
    (termToPlainList l).isSome = true
  | [], _ => rfl
  | i :: is, h => by
    have h1 : cleanInline i = true := by
      have h' := h; simp [cleanList, Bool.and_eq_true] at h'; exact h'.1
    have h2 : cleanList is = true := by
      have h' := h; simp [cleanList, Bool.and_eq_true] at h'; exact h'.2
    have hm := cleanInline_plain i h1
    have hl := cleanList_plain is h2
    cases hmi : termToPlainString i with
    | none => rw [hmi] at hm; simp at hm
    | some v =>
      cases hli : termToPlainList is with
      | none => rw [hli] at hl; simp at hl
      | some r => simp [termToPlainList, hmi, hli]

end

/-- Measuring the headers of a clean table succeeds. -/
theorem measureAll_isSome : ∀ (l : List Inline),
    (∀ c ∈ l, cleanInline c = true) →
    (measureAll termMeasureInline l).isSome = true := by
  intro l
  induction l with
  | nil => intro _; rfl
  | cons c cs ih =>
    intro h
    have hc := cleanInline_measure c (h c (by simp))
    have hcs := ih (fun d hd => h d (by simp [hd]))
    cases hm : termMeasureInline c with
    | none => rw [hm] at hc; simp at hc
    | some v =>
      cases hms : measureAll termMeasureInline cs with
      | none => rw [hms] at hcs; simp at hcs
      | some r => simp [measureAll, hm, hms]

/-- Folding a clean row into the widths succeeds. -/
theorem updateRowO_isSome : ∀ (ws : List Nat) (row : List Inline),
    (∀ c ∈ row, cleanInline c = true) →
    (updateRowO termMeasureInline ws row).isSome = true := by
  intro ws
  induction ws with
  | nil => intro row _; cases row <;> simp [updateRowO]
  | cons w ws ih =>
    intro row h
    cases row with
    | nil => simp [updateRowO]
    | cons c cs =>
      have hc := cleanInline_measure c (h c (by simp))
      cases hm : termMeasureInline c with
      | none => rw [hm] at hc; simp at hc
      | some v =>
        have hcs := ih cs (fun d hd => h d (by simp [hd]))
        cases hu : updateRowO termMeasureInline ws cs with
        | none => rw [hu] at hcs; simp at hcs
        | some r => simp [updateRowO, hm, hu]

/-- Folding all clean rows into the widths succeeds. -/
theorem foldWidths_isSome : ∀ (rows : List (List Inline)) (ws : List Nat),
    (∀ row ∈ rows, ∀ c ∈ row, cleanInline c = true) →
    (rows.foldl (fun ows row => ows.bind
        (fun l => updateRowO termMeasureInline l row)) (some ws)).isSome
      = true := by
  intro rows
  induction rows with
  | nil => intro ws _; rfl
  | cons r rs ih =>
    intro ws h
    have hr := updateRowO_isSome ws r (h r (by simp))
    cases hu : updateRowO termMeasureInline ws r with
    | none => rw [hu] at hr; simp at hr
    | some ws2 =>
      have h2 := ih ws2 (fun row hrow => h row (by simp [hrow]))
      simpa [List.foldl_cons, hu] using h2

/-- The terminal column widths of a clean table are computed without
panicking. -/
theorem colWidthsO_isSome (headers : List Inline) (rows : List (List Inline))
    (hh : ∀ c ∈ headers, cleanInline c = true)
    (hr : ∀ row ∈ rows, ∀ c ∈ row, cleanInline c = true) :
    (colWidthsO termMeasureInline headers rows).isSome = true := by
  unfold colWidthsO
  have hma := measureAll_isSome headers hh
  cases h : measureAll termMeasureInline headers with
  | none => rw [h] at hma; simp at hma
  | some init =>
    have hf := foldWidths_isSome rows init hr
    rcases Option.isSome_iff_exists.mp hf with ⟨val, hval⟩
    simp [hval]

/-- Header cells of a clean table render without panicking. -/
theorem termHeaderCellsGo_isSome (s : TermStyle) (widths : List Nat)
    (aligns : List Alignment) :
    ∀ (headers : List Inline) (i : Nat),
      (∀ c ∈ headers, cleanInline c = true) →
      (termHeaderCellsGo s widths aligns i headers).isSome = true := by
  intro headers
  induction headers with
  | nil => intro i _; rfl
  | cons c cs ih =>
    intro i h
    have hc := cleanInline_plain c (h c (by simp))
    cases hp : termToPlainString c with
    | none => rw [hp] at hc; simp at hc
    | some plain =>
      have hcs := ih (i + 1) (fun d hd => h d (by simp [hd]))
      rcases Option.isSome_iff_exists.mp hcs with ⟨r, hreq⟩
      simp [termHeaderCellsGo, hp, hreq]

/-- Cells of one clean body row render without panicking. -/
theorem termBodyCellsGo_isSome (s : TermStyle) (aligns : List Alignment)
    (row : List Inline) (hrow : ∀ c ∈ row, cleanInline c = true) :
    ∀ (ws : List Nat) (i : Nat),
      (termBodyCellsGo s aligns row i ws).isSome = true := by
  intro ws
  induction ws with
  | nil => intro i; rfl
  | cons w ws ih =>
    intro i
    rcases Option.isSome_iff_exists.mp (ih (i + 1)) with ⟨r, hreq⟩
    cases hget : row.get? i with
    | none =>
      rw [List.get?_eq_getElem?] at hget
      simp [termBodyCellsGo, hget, hreq]
    | some cell =>
      have hc := cleanInline_plain cell (hrow cell (List.get?_mem hget))
      rw [List.get?_eq_getElem?] at hget
      cases hp : termToPlainString cell with
      | none => rw [hp] at hc; simp at hc
      | some plain => simp [termBodyCellsGo, hget, hp, hreq]

/-- Body rows of a clean table render without panicking. -/
theorem termBodyRowsGo_isSome (s : TermStyle) (ind : Nat) (widths : List Nat)
    (aligns : List Alignment) :
    ∀ (rows : List (List Inline)),
      (∀ row ∈ rows, ∀ c ∈ row, cleanInline c = true) →
      (termBodyRowsGo s ind widths aligns rows).isSome = true := by
  intro rows
  induction rows with
  | nil => intro _; rfl
  | cons r rs ih =>
    intro h
    have hr := termBodyCellsGo_isSome s aligns r (h r (by simp)) widths 0
    cases hc : termBodyCellsGo s aligns r 0 widths with
    | none => rw [hc] at hr; simp at hr
    | some cells =>
      have h2 := ih (fun row hrow => h row (by simp [hrow]))
      rcases Option.isSome_iff_exists.mp h2 with ⟨rest, hrest⟩
      simp [termBodyRowsGo, hc, hrest]

/-- C10.  The terminal table pipeline is partial: a `LineBreak` header cell
panics in `measure_inline` and an `Image` header cell panics in
`to_plain_string` (both modeled as `none`); and it is total on tables none of
whose header or row cells contain a `LineBreak` or `Image` inline. -/
theorem term_table_partiality :
    termRenderBlock TermStyle.default 0 (.Table [.LineBreak] [] []) = none
    ∧ termRenderBlock TermStyle.default 0 (.Table [.Image "alt" "url"] [] [])
      = none
    ∧ ∀ (s : TermStyle) (ind : Nat) (headers : List Inline)
        (rows : List (List Inline)) (aligns : List Alignment),
        (∀ c ∈ headers, cleanInline c = true) →
        (∀ row ∈ rows, ∀ c ∈ row, cleanInline c = true) →
        (termRenderBlock s ind (.Table headers rows aligns)).isSome = true := by
  refine ⟨by decide, by decide, ?_⟩
  intro s ind headers rows aligns hh hr
  have htable : termRenderBlock s ind (.Table headers rows aligns)
      = termRenderTable s ind headers rows aligns := by
    simp [termRenderBlock]
  rw [htable]
  unfold termRenderTable
  rcases Option.isSome_iff_exists.mp (colWidthsO_isSome headers rows hh hr)
    with ⟨widths, hwid⟩
  rcases Option.isSome_iff_exists.mp
    (termHeaderCellsGo_isSome s widths aligns headers 0 hh) with ⟨hcells, hhc⟩
  rcases Option.isSome_iff_exists.mp
    (termBodyRowsGo_isSome s ind widths aligns rows hr) with ⟨body, hb⟩
  simp [hwid, hhc, hb]

/-- Witness for `term_table_partiality`: a concrete clean table renders to
`some` output. -/
theorem term_table_partiality_witness :
    (termRenderBlock TermStyle.default 0
      (.Table [.Text "a"] [[.Text "b"]] [])).isSome = true :=
  term_table_partiality.2.2 TermStyle.default 0 [.Text "a"] [[.Text "b"]] []
    (by decide) (by decide)

end Docloom
